import Mathlib

/-!
# Verification of `src/services/geminiService.ts`

Shallow embedding of the service module of the BuildSmart AI estimator.
The module is a thin client over a hosted chat-completion endpoint; the
pieces with reproducible behaviour are

* `cleanJson` — the tolerant JSON extractor built from the two regexes
  of the source, with JavaScript leftmost-lazy match semantics;
* `retryWithBackoff` — the exponential-backoff retry loop;
* `checkProjectFeasibility`, `generateConstructionEstimate`,
  `sendChatMessage` — the three call sites, with the network call and
  the built-in `JSON.parse` taken as parameters (they are external to
  the repository), and every other step translated from the source.

JavaScript values that flow through the module untyped are modelled by
the `Json` inductive; thrown JavaScript errors by the `JsErr` record
(the three fields the code inspects).  Numbers are modelled as integers:
no claim depends on fractional or floating-point behaviour.
-/

set_option autoImplicit false

/-- A parsed JSON value (`JSON.parse` output, or any JS value the code
stores into a result field).  Numbers carry an `Int`; no claim in this
development computes with them. -/
inductive Json where
  | null : Json
  | bool : Bool → Json
  | num : Int → Json
  | str : String → Json
  | arr : List Json → Json
  | obj : List (String × Json) → Json

/-- A thrown JavaScript error, restricted to the three fields the source
inspects: `error?.status`, `error?.code`, `error?.message`. -/
structure JsErr where
  status : Option Nat
  code : Option String
  msg : Option String
deriving DecidableEq

/-- Boolean prefix test on character lists (the primitive under the
substring search used to model the regexes and `String.includes`). -/
def isPre : List Char → List Char → Bool
  | [], _ => true
  | _ :: _, [] => false
  | a :: p, b :: s => a == b && isPre p s

/-- Index of the first occurrence of `p` in `s`, if any (the leftmost
match position of a literal pattern, as a JS regex scan finds it). -/
def findSub (s p : List Char) : Option Nat :=
  if isPre p s then some 0 else
    match s with
    | [] => none
    | _ :: t => (findSub t p).map (· + 1)

/-- `String.includes` / "the pattern occurs somewhere in `s`". -/
def hasSub (s pat : String) : Bool :=
  (findSub s.toList pat.toList).isSome

/-- The rate-limit test of the source:
`error?.status === 429 || error?.code === 'rate_limit_exceeded' ||
error?.message?.includes('rate limit')`. -/
def isRateLimit (e : JsErr) : Bool :=
  e.status == some 429 || e.code == some "rate_limit_exceeded" ||
    (match e.msg with
     | some m => hasSub m "rate limit"
     | none => false)

/-- Opening of the tagged fence in the first regex, the literal
run of three backticks then `json` then a newline. -/
def jsonOpen : List Char := "```json\n".toList

/-- Closing of the tagged fence in the first regex: newline then three
backticks. -/
def closeNl : List Char := "\n```".toList

/-- A bare triple-backtick fence marker. -/
def ticks : List Char := "```".toList

/-- First regex of `cleanJson`: the capture of the leftmost lazy match
of three backticks, `json`, a newline, any characters, a newline, three
backticks.  A JS regex takes the leftmost start position at which the
whole pattern can match and the shortest capture there; for this pattern
that is the first occurrence of the opening literal followed by the
first occurrence of the closing literal after it (if the first opening
has no closing after it, no later opening can have one either). -/
def matchJsonBlock (s : List Char) : Option (List Char) :=
  match findSub s jsonOpen with
  | none => none
  | some i =>
    match findSub (s.drop (i + jsonOpen.length)) closeNl with
    | none => none
    | some j => some ((s.drop (i + jsonOpen.length)).take j)

/-- Second regex of `cleanJson`: the capture of the leftmost lazy match
of three backticks, any characters, three backticks — no language-tag
restriction.  Same leftmost-lazy reduction as `matchJsonBlock`. -/
def matchAnyBlock (s : List Char) : Option (List Char) :=
  match findSub s ticks with
  | none => none
  | some i =>
    match findSub (s.drop (i + ticks.length)) ticks with
    | none => none
    | some j => some ((s.drop (i + ticks.length)).take j)

/-- Character-list core of `cleanJson`. -/
def cleanJsonL (l : List Char) : List Char :=
  match matchJsonBlock l with
  | some c => c
  | none =>
    match matchAnyBlock l with
    | some c => c
    | none => l

/-- The tolerant JSON extractor of the source:
`text.match(pattern1) || text.match(pattern2)`, returning the capture
group of the first regex that matches, else the text unchanged. -/
def cleanJson (s : String) : String :=
  ⟨cleanJsonL s.toList⟩

/-- Observable trace of one `retryWithBackoff` run: the value returned
or error thrown, the total time spent waiting in backoff delays, and
how many times the wrapped operation was invoked. -/
structure RetryTrace (α : Type) where
  result : Except JsErr α
  totalDelay : Nat
  calls : Nat

/-- The loop body of `retryWithBackoff`.  `attempt` is the loop counter
of the source; `remaining` equals `maxRetries - attempt`, so the
source's guard `attempt < maxRetries` is `remaining` being a successor.
`delay` and `calls` accumulate the trace. -/
def retryGo {α : Type} (op : Nat → Except JsErr α) (baseDelay : Nat) :
    Nat → Nat → Nat → Nat → RetryTrace α
  | attempt, delay, calls, remaining =>
    match op attempt with
    | .ok v => ⟨.ok v, delay, calls + 1⟩
    | .error e =>
      if isRateLimit e then
        match remaining with
        | 0 => ⟨.error e, delay, calls + 1⟩
        | r + 1 =>
          retryGo op baseDelay (attempt + 1)
            (delay + baseDelay * 2 ^ attempt) (calls + 1) r
      else ⟨.error e, delay, calls + 1⟩

/-- The retry helper of the source.  The wrapped zero-argument async
operation is modelled as a function of the invocation index, so that
each attempt's outcome is visible to the statement of a claim. -/
def retryWithBackoff {α : Type} (op : Nat → Except JsErr α)
    (maxRetries : Nat := 5) (baseDelay : Nat := 2000) : RetryTrace α :=
  retryGo op baseDelay 0 0 0 maxRetries

/-- The part of a chat-completion response the module reads: the
optional-chained access `response.choices?.[0]?.message?.content`.
Each step that can be absent or null is an `Option`. -/
structure RespMessage where
  content : Option String

/-- One entry of `response.choices`. -/
structure RespChoice where
  message : Option RespMessage

/-- A provider response. -/
structure Response where
  choices : Option (List RespChoice)

/-- `response.choices?.[0]?.message?.content` as an optional value. -/
def firstContent (r : Response) : Option String :=
  match r.choices with
  | none => none
  | some cs =>
    match cs with
    | [] => none
    | c :: _ =>
      match c.message with
      | none => none
      | some m => m.content

/-- `... || dflt` on the extracted content: JavaScript substitutes the
default for an absent (undefined/null) content and also for the empty
string, which is falsy. -/
def contentOr (dflt : String) (r : Response) : String :=
  match firstContent r with
  | some s => if s = "" then dflt else s
  | none => dflt

/-- JavaScript truthiness of a JSON value (`!!v` and the `v || d`
operators of the source): null, false, 0 and the empty string are
falsy; every other value, including empty arrays and objects, is
truthy. -/
def truthy : Json → Bool
  | .null => false
  | .bool b => b
  | .num n => n != 0
  | .str s => s != ""
  | .arr _ => true
  | .obj _ => true

/-- JavaScript property read `data.k` on a parsed JSON value: throws a
TypeError when the base is null, yields the field (or undefined,
modelled `none`) on an object, and undefined on any other base. -/
def getProp (d : Json) (k : String) : Except JsErr (Option Json) :=
  match d with
  | .null => .error ⟨none, none, some "Cannot read properties of null"⟩
  | .obj fields =>
    match fields.lookup k with
    | some v => .ok (some v)
    | none => .ok none
  | _ => .ok none

/-- `v || d` where `v` is a property read that may be undefined. -/
def jsOr (v : Option Json) (d : Json) : Json :=
  match v with
  | some j => if truthy j then j else d
  | none => d

/-- The feasibility verdict object the module returns.  `isValid` is
forced to a boolean by `!!`; the other three fields receive whatever
JSON value the reply supplied (or the default), so they stay `Json`. -/
structure FeasibilityResult where
  isValid : Bool
  budgetVerdict : Json
  issues : Json
  suggestions : Json

/-- The fixed fallback object of the `catch` branch of
`checkProjectFeasibility`. -/
def feasibilityFallback : FeasibilityResult :=
  ⟨false, .str "Insufficient",
    .arr [.str "Service unavailable or parse error"], .arr []⟩

/-- The result construction of `checkProjectFeasibility` from parsed
data:
`isValid: !!data.isValid, budgetVerdict: data.budgetVerdict || 'Insufficient',
issues: data.issues || [], suggestions: data.suggestions || []`.
Property reads are in source order; a throw (null base) escapes to the
enclosing catch. -/
def buildFeasibility (data : Json) : Except JsErr FeasibilityResult :=
  match getProp data "isValid" with
  | .error e => .error e
  | .ok iv =>
    match getProp data "budgetVerdict" with
    | .error e => .error e
    | .ok bv =>
      match getProp data "issues" with
      | .error e => .error e
      | .ok iss =>
        match getProp data "suggestions" with
        | .error e => .error e
        | .ok sg =>
          .ok ⟨(match iv with | some v => truthy v | none => false),
            jsOr bv (.str "Insufficient"), jsOr iss (.arr []), jsOr sg (.arr [])⟩

/-- `checkProjectFeasibility`.  The retried provider call is the
parameter `op` (one outcome per invocation index) and the built-in
`JSON.parse` is the parameter `parse`; both are external to the
repository.  The body follows the source: retry the call with the
default parameters, extract the content with the `"{}"` default, clean
and parse it, build the result; any throw along the way lands in the
catch, which returns the fixed fallback. -/
def checkProjectFeasibility (op : Nat → Except JsErr Response)
    (parse : String → Except JsErr Json) : FeasibilityResult :=
  match (retryWithBackoff op 5 2000).result with
  | .error _ => feasibilityFallback
  | .ok resp =>
    match parse (cleanJson (contentOr "\x7b\x7d" resp)) with
    | .error _ => feasibilityFallback
    | .ok data =>
      match buildFeasibility data with
      | .error _ => feasibilityFallback
      | .ok r => r

/-- `generateConstructionEstimate`.  Same external parameters as the
feasibility check.  The catch block rethrows (`throw error`), so every
failure propagates, and a successfully parsed reply is returned as-is
(the `as EstimationResult` cast performs no runtime check, so no field
of the parsed object is inspected). -/
def generateConstructionEstimate (op : Nat → Except JsErr Response)
    (parse : String → Except JsErr Json) : Except JsErr Json :=
  match (retryWithBackoff op 5 2000).result with
  | .error e => .error e
  | .ok resp =>
    match parse (cleanJson (contentOr "\x7b\x7d" resp)) with
    | .error e => .error e
    | .ok data => .ok data

/-- One part of a Gemini-format history entry. -/
structure HistPart where
  text : String
deriving Inhabited

/-- One entry of the incoming chat history. -/
structure HistEntry where
  role : String
  parts : List HistPart

/-- One message in the provider's format. -/
structure ChatMsg where
  role : String
  content : String
deriving DecidableEq

/-- The TypeError thrown by `h.parts[0].text` when `parts` is empty
(`h.parts[0]` is undefined). -/
def partsTypeError : JsErr :=
  ⟨none, none, some "Cannot read properties of undefined"⟩

/-- The per-entry conversion of `sendChatMessage`:
`role: h.role === 'model' ? 'assistant' : 'user', content: h.parts[0].text`.
An empty `parts` list makes the access throw. -/
def convEntry (h : HistEntry) : Except JsErr ChatMsg :=
  match h.parts with
  | [] => .error partsTypeError
  | p :: _ =>
    .ok ⟨if h.role = "model" then "assistant" else "user", p.text⟩

/-- The conversion `history.map(h => ...)` of the source: entries in
order, the first throwing access aborting the rest. -/
def convAll : List HistEntry → Except JsErr (List ChatMsg)
  | [] => .ok []
  | h :: t =>
    match convEntry h with
    | .error e => .error e
    | .ok m =>
      match convAll t with
      | .error e => .error e
      | .ok ms => .ok (m :: ms)

/-- The message list supplied to the endpoint: the converted history
with the new message pushed last under the user label.  The conversion
happens before the network call, so its throw aborts the whole
operation first. -/
def mkChatMessages (history : List HistEntry) (message : String) :
    Except JsErr (List ChatMsg) :=
  match convAll history with
  | .error e => .error e
  | .ok l => .ok (l ++ [⟨"user", message⟩])

/-- `sendChatMessage`.  The endpoint is a parameter taking the supplied
message list and an invocation index; the source invokes it exactly
once (index 0), directly — not through `retryWithBackoff` — and returns
`response.choices?.[0]?.message?.content || ""` without running the
reply through `cleanJson`. -/
def sendChatMessage (ep : List ChatMsg → Nat → Except JsErr Response)
    (history : List HistEntry) (message : String) : Except JsErr String :=
  match mkChatMessages history message with
  | .error e => .error e
  | .ok msgs =>
    match ep msgs 0 with
    | .error e => .error e
    | .ok r => .ok (contentOr "" r)

/-- The shape of a converted history entry as the spec describes it;
`headI` is safe because the claims using it assume non-empty parts. -/
def entrySpec (h : HistEntry) : ChatMsg :=
  ⟨if h.role = "model" then "assistant" else "user", h.parts.headI.text⟩

/-! ## Lemmas about the substring search -/

/-- Prefix tests compose: a prefix of a prefix is a prefix. -/
theorem isPre_trans : ∀ (a b c : List Char),
    isPre a b = true → isPre b c = true → isPre a c = true
  | [], _, _, _, _ => rfl
  | _ :: _, [], _, hab, _ => by simp [isPre] at hab
  | _ :: _, _ :: _, [], _, hbc => by simp [isPre] at hbc
  | x :: a, y :: b, z :: c, hab, hbc => by
    simp only [isPre, Bool.and_eq_true, beq_iff_eq] at hab hbc ⊢
    exact ⟨hab.1.trans hbc.1, isPre_trans a b c hab.2 hbc.2⟩

/-- A prefix of a `take` of a list is a prefix of the list. -/
theorem isPre_take : ∀ (p l : List Char) (n : Nat),
    isPre p (l.take n) = true → isPre p l = true
  | [], _, _, _ => rfl
  | _ :: _, [], _, h => by simp [List.take_nil, isPre] at h
  | _ :: _, _ :: _, 0, h => by simp [List.take, isPre] at h
  | x :: p, b :: l, n + 1, h => by
    simp only [List.take, isPre, Bool.and_eq_true] at h ⊢
    exact ⟨h.1, isPre_take p l n h.2⟩

/-- If the pattern occurs at some offset, the search succeeds. -/
theorem findSub_isSome_of_drop : ∀ (s p : List Char) (i : Nat),
    isPre p (List.drop i s) = true → (findSub s p).isSome = true := by
  intro s
  induction s with
  | nil =>
    intro p i h
    cases p with
    | nil => simp [findSub, isPre]
    | cons x q => simp [List.drop_nil, isPre] at h
  | cons c t ih =>
    intro p i h
    cases i with
    | zero =>
      rw [List.drop_zero] at h
      simp [findSub, h]
    | succ i' =>
      have := ih p i' h
      rw [findSub]
      split
      · simp
      · simpa using this

/-- The search returns a genuine occurrence. -/
theorem findSub_some_isPre : ∀ (s p : List Char) (j : Nat),
    findSub s p = some j → isPre p (List.drop j s) = true := by
  intro s
  induction s with
  | nil =>
    intro p j h
    rw [findSub] at h
    split at h
    · cases h; simpa [List.drop_nil] using (by assumption : isPre p [] = true)
    · simp at h
  | cons c t ih =>
    intro p j h
    rw [findSub] at h
    split at h
    · cases h
      simpa using (by assumption : isPre p (c :: t) = true)
    · simp only [Option.map_eq_some'] at h
      obtain ⟨j', hj', rfl⟩ := h
      simpa [List.drop_succ_cons] using ih p j' hj'

/-- The search returns the first occurrence: before it, nothing. -/
theorem findSub_take_none : ∀ (s p : List Char) (j : Nat),
    findSub s p = some j → p ≠ [] → findSub (s.take j) p = none := by
  intro s
  induction s with
  | nil =>
    intro p j h hp
    rw [findSub] at h
    split at h
    · cases h
      have : p = [] := by
        cases p with
        | nil => rfl
        | cons x q => simp [isPre] at *
      exact absurd this hp
    · simp at h
  | cons c t ih =>
    intro p j h hp
    rw [findSub] at h
    split at h
    · cases h
      rw [List.take_zero, findSub]
      have hfalse : isPre p [] = false := by
        cases p with
        | nil => exact absurd rfl hp
        | cons x q => rfl
      simp [hfalse]
    · rename_i hnot
      simp only [Option.map_eq_some'] at h
      obtain ⟨j', hj', rfl⟩ := h
      rw [List.take_succ_cons, findSub]
      have h1 : isPre p (c :: t.take j') = false := by
        cases hq : isPre p (c :: t.take j') with
        | false => rfl
        | true =>
          have : isPre p (c :: t) = true := by
            have := isPre_take p (c :: t) (j' + 1) (by simpa [List.take_succ_cons] using hq)
            exact this
          exact absurd this (by simpa using hnot)
      simp [h1, ih p j' hj' hp]

/-- If `q` heads `p`, any occurrence of `p` yields one of `q`: a failed
search for `q` forces a failed search for `p`. -/
theorem findSub_none_of_pre (s q p : List Char) (hqp : isPre q p = true)
    (hq : findSub s q = none) : findSub s p = none := by
  cases h : findSub s p with
  | none => rfl
  | some j =>
    have h1 := findSub_some_isPre s p j h
    have h2 := isPre_trans q p (List.drop j s) hqp h1
    have h3 := findSub_isSome_of_drop s q j h2
    rw [hq] at h3
    simp at h3

/-! ## Lemmas about the retry loop -/

/-- Running the loop from `attempt` with `k` rate-limited failures and
then a success: the success value is returned, each retried attempt `i`
adds `baseDelay * 2 ^ i` of waiting, and the operation runs `k + 1`
times. -/
theorem retryGo_ok {α : Type} (op : Nat → Except JsErr α) (bd : Nat) (v : α) :
    ∀ (k attempt delay calls remaining : Nat), k ≤ remaining →
    (∀ i, i < k → ∃ e, op (attempt + i) = .error e ∧ isRateLimit e = true) →
    op (attempt + k) = .ok v →
    retryGo op bd attempt delay calls remaining =
      ⟨.ok v, delay + ∑ i in Finset.range k, bd * 2 ^ (attempt + i),
        calls + k + 1⟩ := by
  intro k
  induction k with
  | zero =>
    intro attempt delay calls remaining _ _ h3
    rw [Nat.add_zero] at h3
    rw [retryGo]
    simp [h3]
  | succ k ih =>
    intro attempt delay calls remaining hk h2 h3
    obtain ⟨e, he, hrl⟩ := h2 0 (Nat.succ_pos k)
    rw [Nat.add_zero] at he
    cases remaining with
    | zero => omega
    | succ r =>
      have h0 : ∀ i, bd * 2 ^ (attempt + (i + 1)) = bd * 2 ^ (attempt + 1 + i) :=
        fun i => by rw [show attempt + (i + 1) = attempt + 1 + i from by omega]
      have hs : ∑ i in Finset.range (k + 1), bd * 2 ^ (attempt + i)
          = (∑ i in Finset.range k, bd * 2 ^ (attempt + 1 + i)) + bd * 2 ^ attempt := by
        rw [Finset.sum_range_succ']
        simp only [h0, Nat.add_zero]
      rw [retryGo]
      simp only [he, hrl, if_true]
      rw [ih (attempt + 1) (delay + bd * 2 ^ attempt) (calls + 1) r
        (by omega)
        (fun i hi => by
          obtain ⟨e', he', hrl'⟩ := h2 (i + 1) (by omega)
          exact ⟨e', by rwa [show attempt + 1 + i = attempt + (i + 1) from by omega], hrl'⟩)
        (by rwa [show attempt + 1 + k = attempt + (k + 1) from by omega])]
      rw [hs]
      congr 1
      · ring
      · omega

/-- Running the loop from `attempt` with `j` rate-limited failures and
then a failure that is either not rate-limited or lands on the last
permitted attempt: that failure is propagated, with `j + 1` invocations
and waiting only for the `j` retried attempts. -/
theorem retryGo_err {α : Type} (op : Nat → Except JsErr α) (bd : Nat) :
    ∀ (j attempt delay calls remaining : Nat) (e : JsErr), j ≤ remaining →
    (∀ i, i < j → ∃ e', op (attempt + i) = .error e' ∧ isRateLimit e' = true) →
    op (attempt + j) = .error e →
    (isRateLimit e = false ∨ j = remaining) →
    retryGo op bd attempt delay calls remaining =
      ⟨.error e, delay + ∑ i in Finset.range j, bd * 2 ^ (attempt + i),
        calls + j + 1⟩ := by
  intro j
  induction j with
  | zero =>
    intro attempt delay calls remaining e _ _ h3 h4
    rw [Nat.add_zero] at h3
    rw [retryGo]
    cases hrl : isRateLimit e with
    | false => simp [h3, hrl]
    | true =>
      have hrem : remaining = 0 := by
        rcases h4 with h4 | h4
        · rw [hrl] at h4; cases h4
        · omega
      subst hrem
      simp [h3, hrl]
  | succ j ih =>
    intro attempt delay calls remaining e hk h2 h3 h4
    obtain ⟨e0, he0, hrl0⟩ := h2 0 (Nat.succ_pos j)
    rw [Nat.add_zero] at he0
    cases remaining with
    | zero => omega
    | succ r =>
      have h0 : ∀ i, bd * 2 ^ (attempt + (i + 1)) = bd * 2 ^ (attempt + 1 + i) :=
        fun i => by rw [show attempt + (i + 1) = attempt + 1 + i from by omega]
      have hs : ∑ i in Finset.range (j + 1), bd * 2 ^ (attempt + i)
          = (∑ i in Finset.range j, bd * 2 ^ (attempt + 1 + i)) + bd * 2 ^ attempt := by
        rw [Finset.sum_range_succ']
        simp only [h0, Nat.add_zero]
      rw [retryGo]
      simp only [he0, hrl0, if_true]
      rw [ih (attempt + 1) (delay + bd * 2 ^ attempt) (calls + 1) r e
        (by omega)
        (fun i hi => by
          obtain ⟨e', he', hrl'⟩ := h2 (i + 1) (by omega)
          exact ⟨e', by rwa [show attempt + 1 + i = attempt + (i + 1) from by omega], hrl'⟩)
        (by rwa [show attempt + 1 + j = attempt + (j + 1) from by omega])
        (by rcases h4 with h4 | h4; exact Or.inl h4; exact Or.inr (by omega))]
      rw [hs]
      congr 1
      · ring
      · omega

/-! ## Lemmas about the extractor -/

/-- A text with no triple-backtick at all is returned unchanged. -/
theorem cleanJsonL_of_no_ticks (l : List Char) (h : findSub l ticks = none) :
    cleanJsonL l = l := by
  have hjson : findSub l jsonOpen = none :=
    findSub_none_of_pre l ticks jsonOpen (by decide) h
  simp [cleanJsonL, matchJsonBlock, matchAnyBlock, hjson, h]

/-- The capture of the untagged-fence regex contains no triple backtick:
it stops at the first closing fence. -/
theorem matchAnyBlock_no_ticks (l c : List Char) (h : matchAnyBlock l = some c) :
    findSub c ticks = none := by
  rw [matchAnyBlock] at h
  split at h
  · exact absurd h (by simp)
  · rename_i i h1
    split at h
    · exact absurd h (by simp)
    · rename_i j h2
      simp only [Option.some.injEq] at h
      subst h
      exact findSub_take_none _ ticks j h2 (by decide)

/-- Applying `cleanJson`'s core twice is the same as applying it once,
for any text with no occurrence of the tagged opening fence.  (The
tagged branch is the only one whose capture can still contain a fence
pair; the untagged branch always stops at the first closing fence.) -/
theorem cleanJsonL_idem (l : List Char) (h : findSub l jsonOpen = none) :
    cleanJsonL (cleanJsonL l) = cleanJsonL l := by
  have hjson : matchJsonBlock l = none := by simp [matchJsonBlock, h]
  cases hm : matchAnyBlock l with
  | none =>
    have hl : cleanJsonL l = l := by simp [cleanJsonL, hjson, hm]
    rw [hl, hl]
  | some c =>
    have hl : cleanJsonL l = c := by simp [cleanJsonL, hjson, hm]
    rw [hl, cleanJsonL_of_no_ticks c (matchAnyBlock_no_ticks l c hm)]

/-! ## Claim theorems -/

/-- Concrete rate-limit error used by witnesses: an HTTP 429 status. -/
def rl429 : JsErr := ⟨some 429, none, none⟩

/-- Concrete non-rate-limit error used by witnesses. -/
def plainErr : JsErr := ⟨none, none, some "boom"⟩

/-- C1: an operation that fails rate-limited `k` times
(`0 ≤ k ≤ maxRetries`) and then succeeds makes `retryWithBackoff`
return the success value after `k + 1` invocations, having waited a
total of `baseDelay * 2 ^ i` summed over `i` in `[0, k-1]` (for the
defaults `maxRetries = 5`, `baseDelay = 2000` and `k = 5` the waits are
2 s, 4 s, 8 s, 16 s, 32 s; see the witness). -/
theorem retry_success_after_rate_limits {α : Type}
    (op : Nat → Except JsErr α) (k maxRetries baseDelay : Nat) (v : α)
    (hk : k ≤ maxRetries)
    (hfail : ∀ i, i < k → ∃ e, op i = .error e ∧ isRateLimit e = true)
    (hok : op k = .ok v) :
    retryWithBackoff op maxRetries baseDelay =
      ⟨.ok v, ∑ i in Finset.range k, baseDelay * 2 ^ i, k + 1⟩ := by
  have h := retryGo_ok op baseDelay v k 0 0 0 maxRetries hk
    (fun i hi => by simpa using hfail i hi) (by simpa using hok)
  simpa [retryWithBackoff] using h

/-- Operation for the C1 witness: rate-limited on the first five
invocations, then a success. -/
def opRL5 : Nat → Except JsErr Nat :=
  fun i => if i < 5 then .error rl429 else .ok 1

/-- Witness for C1 at the default parameters: five rate-limited
failures then a success give waits 2000 + 4000 + 8000 + 16000 + 32000
= 62000 and six invocations. -/
theorem retry_success_after_rate_limits_witness :
    retryWithBackoff opRL5 5 2000 = ⟨.ok 1, 62000, 6⟩ := by
  have h := retry_success_after_rate_limits opRL5 5 5 2000 1 (by omega)
    (fun i hi => ⟨rl429, by simp [opRL5, hi], by decide⟩)
    (by simp [opRL5])
  rw [h]
  congr 1

/-- C2: the propagation policy of `retryWithBackoff`.
First conjunct: a non-rate-limit failure on the first attempt is
propagated with zero delay and exactly one invocation.
Second conjunct: more generally, after any run of rate-limited
failures, the first non-rate-limit failure is propagated at once — no
backoff wait is added for it and the operation is not re-invoked.
Third conjunct: if every attempt fails rate-limited, the operation is
invoked exactly `maxRetries + 1` times and the final rate-limit failure
is propagated.
Fourth conjunct: `maxRetries = 0` means exactly one attempt and no
retry, whatever the operation does. -/
theorem retry_propagation_policy :
    (∀ (α : Type) (op : Nat → Except JsErr α) (maxRetries baseDelay : Nat)
      (e : JsErr), op 0 = .error e → isRateLimit e = false →
      retryWithBackoff op maxRetries baseDelay = ⟨.error e, 0, 1⟩) ∧
    (∀ (α : Type) (op : Nat → Except JsErr α) (maxRetries baseDelay j : Nat)
      (e : JsErr), j ≤ maxRetries →
      (∀ i, i < j → ∃ e', op i = .error e' ∧ isRateLimit e' = true) →
      op j = .error e → isRateLimit e = false →
      retryWithBackoff op maxRetries baseDelay =
        ⟨.error e, ∑ i in Finset.range j, baseDelay * 2 ^ i, j + 1⟩) ∧
    (∀ (α : Type) (op : Nat → Except JsErr α) (maxRetries baseDelay : Nat)
      (e : JsErr),
      (∀ i, i < maxRetries → ∃ e', op i = .error e' ∧ isRateLimit e' = true) →
      op maxRetries = .error e → isRateLimit e = true →
      retryWithBackoff op maxRetries baseDelay =
        ⟨.error e, ∑ i in Finset.range maxRetries, baseDelay * 2 ^ i,
          maxRetries + 1⟩) ∧
    (∀ (α : Type) (op : Nat → Except JsErr α) (baseDelay : Nat),
      (retryWithBackoff op 0 baseDelay).calls = 1 ∧
      (retryWithBackoff op 0 baseDelay).totalDelay = 0) := by
  have general : ∀ (α : Type) (op : Nat → Except JsErr α)
      (maxRetries baseDelay j : Nat) (e : JsErr), j ≤ maxRetries →
      (∀ i, i < j → ∃ e', op i = .error e' ∧ isRateLimit e' = true) →
      op j = .error e → isRateLimit e = false →
      retryWithBackoff op maxRetries baseDelay =
        ⟨.error e, ∑ i in Finset.range j, baseDelay * 2 ^ i, j + 1⟩ := by
    intro α op mr bd j e hj hall h he
    have h0 := retryGo_err op bd j 0 0 0 mr e hj
      (fun i hi => by simpa using hall i hi) (by simpa using h) (Or.inl he)
    simpa [retryWithBackoff] using h0
  refine ⟨?_, general, ?_, ?_⟩
  · intro α op mr bd e h he
    have h0 := general α op mr bd 0 e (Nat.zero_le mr)
      (fun i hi => absurd hi (Nat.not_lt_zero i)) h he
    simpa using h0
  · intro α op mr bd e hall h hrl
    have h0 := retryGo_err op bd mr 0 0 0 mr e (le_refl mr)
      (fun i hi => by simpa using hall i hi) (by simpa using h) (Or.inr rfl)
    simpa [retryWithBackoff] using h0
  · intro α op bd
    cases h : op 0 with
    | ok v => simp [retryWithBackoff, retryGo, h]
    | error e =>
      cases hrl : isRateLimit e <;>
        simp [retryWithBackoff, retryGo, h, hrl]

/-- Witness for C2: a non-rate-limit failure on the first attempt is
propagated with zero delay and a single invocation. -/
theorem retry_propagation_policy_witness :
    retryWithBackoff (fun _ => (.error plainErr : Except JsErr Nat)) 5 2000 =
      ⟨.error plainErr, 0, 1⟩ :=
  retry_propagation_policy.1 Nat (fun _ => .error plainErr) 5 2000 plainErr
    rfl (by decide)

/-- Bridge between the string-level `hasSub` and the list-level search. -/
theorem hasSub_eq_false (s pat : String) :
    hasSub s pat = false ↔ findSub s.toList pat.toList = none := by
  rw [hasSub]
  cases findSub s.toList pat.toList <;> simp

/-- C3 counterexample: the claim requires an input whose only fenced
block carries a (non-json) language tag to come back unchanged — the
block is not json-tagged and not untagged.  The code's fallback regex
has no language-tag restriction, so the input is not returned
unchanged: the enclosed content is returned with the tag still on it. -/
theorem cleanJson_tag_counterexample :
    cleanJson "```python\nx\n```" ≠ "```python\nx\n```" ∧
    cleanJson "```python\nx\n```" = "python\nx\n" := by
  constructor
  · decide
  · decide

/-- C3 (amended): `cleanJson` returns the content between the first
tagged opening fence (three backticks, `json`, newline) and the next
newline-plus-fence close when both occur; otherwise the content between
the first and the next triple backtick regardless of any language tag,
the tag being part of the returned content; otherwise — in particular
whenever the input holds no triple backtick at all — the input
unchanged.  The three spec vectors hold. -/
theorem cleanJson_extraction :
    cleanJson "```json\n\x7b\"a\":1\x7d\n```" = "\x7b\"a\":1\x7d" ∧
    cleanJson "```\x7b\"a\":1\x7d```" = "\x7b\"a\":1\x7d" ∧
    cleanJson "\x7b\"a\":1\x7d" = "\x7b\"a\":1\x7d" ∧
    (∀ s : String, hasSub s "```" = false → cleanJson s = s) ∧
    cleanJson "```js\n\x7b\x7d\n```" = "js\n\x7b\x7d\n" := by
  refine ⟨by decide, by decide, by decide, ?_, by decide⟩
  intro s h
  have h' : findSub s.toList ticks = none := (hasSub_eq_false s "```").mp h
  rw [cleanJson, cleanJsonL_of_no_ticks s.toList h']
  rfl

/-- Witness for the amended C3: a fence-free string is its own
extraction. -/
theorem cleanJson_extraction_witness :
    hasSub "hello" "```" = false ∧ cleanJson "hello" = "hello" :=
  ⟨by decide, cleanJson_extraction.2.2.2.1 "hello" (by decide)⟩

/-- C9: `cleanJson` is idempotent on bare JSON.  Proved for every input
with no occurrence of the tagged opening fence (backticks, `json`,
newline): a valid bare JSON text can never contain one, since a JSON
string literal may not contain a raw newline and backticks are legal
only inside string literals.  The tagged branch is the only source of
non-idempotence; the untagged branch's capture stops at the first
closing fence and so is always a fixpoint. -/
theorem cleanJson_idempotent_on_bare (s : String)
    (h : hasSub s "```json\n" = false) :
    cleanJson (cleanJson s) = cleanJson s := by
  have h' : findSub s.toList jsonOpen = none :=
    (hasSub_eq_false s "```json\n").mp h
  show (⟨cleanJsonL (String.toList ⟨cleanJsonL s.toList⟩)⟩ : String)
    = ⟨cleanJsonL s.toList⟩
  rw [show String.toList (⟨cleanJsonL s.toList⟩ : String)
    = cleanJsonL s.toList from rfl]
  rw [cleanJsonL_idem s.toList h']

/-- Witness for C9 on a bare JSON object. -/
theorem cleanJson_idempotent_on_bare_witness :
    hasSub "\x7b\"a\":1\x7d" "```json\n" = false ∧
    cleanJson (cleanJson "\x7b\"a\":1\x7d") = cleanJson "\x7b\"a\":1\x7d" :=
  ⟨by decide, cleanJson_idempotent_on_bare _ (by decide)⟩

/-- A concrete successful response whose content is the bare JSON
object text. -/
def okRespEmpty : Response := ⟨some [⟨some ⟨some "\x7b\x7d"⟩⟩]⟩

/-- A parse stand-in returning an empty JSON object for any text (what
`JSON.parse` yields on the empty-object reply). -/
def emptyObjParse : String → Except JsErr Json := fun _ => .ok (.obj [])

/-- C4: `checkProjectFeasibility` never propagates a failure — for
every provider failure of any kind (the retried call ends in an error)
and for every JSON parse failure, it returns exactly the fixed fallback
object: `isValid` false, verdict `Insufficient`, the single diagnostic
issue string as the only issues entry, and no suggestions. -/
theorem feasibility_never_propagates
    (op : Nat → Except JsErr Response) (parse : String → Except JsErr Json) :
    feasibilityFallback =
      ⟨false, .str "Insufficient",
        .arr [.str "Service unavailable or parse error"], .arr []⟩ ∧
    (∀ e, (retryWithBackoff op 5 2000).result = .error e →
      checkProjectFeasibility op parse = feasibilityFallback) ∧
    (∀ r pe, (retryWithBackoff op 5 2000).result = .ok r →
      parse (cleanJson (contentOr "\x7b\x7d" r)) = .error pe →
      checkProjectFeasibility op parse = feasibilityFallback) := by
  refine ⟨rfl, ?_, ?_⟩
  · intro e he
    simp [checkProjectFeasibility, he]
  · intro r pe hr hp
    simp [checkProjectFeasibility, hr, hp]

/-- Witness for C4: a provider that keeps failing with a non-rate-limit
error makes the feasibility check return the fallback. -/
theorem feasibility_never_propagates_witness :
    checkProjectFeasibility (fun _ => .error plainErr) emptyObjParse =
      feasibilityFallback :=
  (feasibility_never_propagates (fun _ => .error plainErr)
    emptyObjParse).2.1 plainErr rfl

/-- C5 (amended): `generateConstructionEstimate` applies no defaulting:
every provider failure and every malformed-JSON reply is propagated to
the caller as the same failure; but missing fields are not detected —
a syntactically valid JSON reply is returned verbatim as a success, no
matter which fields it lacks. -/
theorem estimate_propagation
    (op : Nat → Except JsErr Response) (parse : String → Except JsErr Json) :
    (∀ e, (retryWithBackoff op 5 2000).result = .error e →
      generateConstructionEstimate op parse = .error e) ∧
    (∀ r pe, (retryWithBackoff op 5 2000).result = .ok r →
      parse (cleanJson (contentOr "\x7b\x7d" r)) = .error pe →
      generateConstructionEstimate op parse = .error pe) ∧
    (∀ r d, (retryWithBackoff op 5 2000).result = .ok r →
      parse (cleanJson (contentOr "\x7b\x7d" r)) = .ok d →
      generateConstructionEstimate op parse = .ok d) := by
  refine ⟨?_, ?_, ?_⟩
  · intro e he
    simp [generateConstructionEstimate, he]
  · intro r pe hr hp
    simp [generateConstructionEstimate, hr, hp]
  · intro r d hr hp
    simp [generateConstructionEstimate, hr, hp]

/-- Witness for the amended C5: a provider failure is propagated as the
same error. -/
theorem estimate_propagation_witness :
    generateConstructionEstimate (fun _ => .error plainErr) emptyObjParse =
      .error plainErr :=
  (estimate_propagation (fun _ => .error plainErr) emptyObjParse).1
    plainErr rfl

/-- C5 counterexample: a reply that parses to the empty JSON object —
every field of the estimate shape missing — is returned as a success,
not propagated as a failure as the claim demands. -/
theorem estimate_missing_fields_counterexample :
    generateConstructionEstimate (fun _ => .ok okRespEmpty) emptyObjParse =
      .ok (.obj []) ∧
    (generateConstructionEstimate (fun _ => .ok okRespEmpty)
      emptyObjParse).isOk = true := by
  exact ⟨rfl, rfl⟩

/-- Truthy-or-default always yields a truthy value when the default is
truthy. -/
theorem truthy_jsOr (v : Option Json) (d : Json) (hd : truthy d = true) :
    truthy (jsOr v d) = true := by
  cases v with
  | none => exact hd
  | some j =>
    rw [jsOr]
    cases hj : truthy j with
    | true => simp [hj]
    | false => simp [hj, hd]

/-- A successfully built feasibility result takes its verdict from the
reply's `budgetVerdict` field through the `|| 'Insufficient'` default. -/
theorem buildFeasibility_verdict (data : Json) (r : FeasibilityResult)
    (h : buildFeasibility data = .ok r) :
    ∃ bv, r.budgetVerdict = jsOr bv (.str "Insufficient") := by
  rw [buildFeasibility] at h
  split at h
  · exact absurd h (by simp)
  · split at h
    · exact absurd h (by simp)
    · split at h
      · exact absurd h (by simp)
      · split at h
        · exact absurd h (by simp)
        · simp only [Except.ok.injEq] at h
          subst h
          exact ⟨_, rfl⟩

/-- C8 (amended): the closed enumeration is not enforced.  The verdict
field is always a truthy JSON value: the reply's own `budgetVerdict`
value whenever that is truthy — whatever it is — and the string
`Insufficient` otherwise (absent or falsy field, or any failure path,
where the fallback is returned). -/
theorem feasibility_verdict_truthy
    (op : Nat → Except JsErr Response) (parse : String → Except JsErr Json) :
    (truthy (checkProjectFeasibility op parse).budgetVerdict = true) ∧
    (∀ e, (retryWithBackoff op 5 2000).result = .error e →
      (checkProjectFeasibility op parse).budgetVerdict =
        .str "Insufficient") := by
  constructor
  · cases hres : (retryWithBackoff op 5 2000).result with
    | error e =>
      simp only [checkProjectFeasibility, hres]
      rfl
    | ok resp =>
      cases hp : parse (cleanJson (contentOr "\x7b\x7d" resp)) with
      | error pe =>
        simp only [checkProjectFeasibility, hres, hp]
        rfl
      | ok data =>
        cases hb : buildFeasibility data with
        | error e =>
          simp only [checkProjectFeasibility, hres, hp, hb]
          rfl
        | ok r =>
          obtain ⟨bv, hbv⟩ := buildFeasibility_verdict data r hb
          simp only [checkProjectFeasibility, hres, hp, hb]
          rw [hbv]
          exact truthy_jsOr bv (.str "Insufficient") rfl
  · intro e he
    simp [checkProjectFeasibility, he, feasibilityFallback]

/-- Witness for the amended C8: on a provider failure the verdict is
the default string. -/
theorem feasibility_verdict_truthy_witness :
    (checkProjectFeasibility (fun _ => .error plainErr)
      emptyObjParse).budgetVerdict = .str "Insufficient" :=
  (feasibility_verdict_truthy (fun _ => .error plainErr)
    emptyObjParse).2 plainErr rfl

/-- A parse stand-in for a reply carrying a truthy `budgetVerdict`
outside the enumeration (what `JSON.parse` yields on such a reply). -/
def bogusVerdictParse : String → Except JsErr Json :=
  fun _ => .ok (.obj [("budgetVerdict", .str "Bogus")])

/-- C8 counterexample: a reply whose `budgetVerdict` is the truthy
string `Bogus` flows into the result verbatim, so the result's verdict
lies outside the closed enumeration the claim asserts. -/
theorem feasibility_verdict_counterexample :
    (checkProjectFeasibility (fun _ => .ok okRespEmpty)
      bogusVerdictParse).budgetVerdict = .str "Bogus" ∧
    Json.str "Bogus" ≠ .str "Realistic" ∧
    Json.str "Bogus" ≠ .str "Insufficient" ∧
    Json.str "Bogus" ≠ .str "Excessive" := by
  refine ⟨rfl, by simp, by simp, by simp⟩


/-- A response with a single choice carrying the given content. -/
def singleContentResp (s : String) : Response := ⟨some [⟨some ⟨some s⟩⟩]⟩

/-- Converting a history whose entries all have a non-empty parts list
succeeds and yields the spec-shaped per-entry translation. -/
theorem convAll_ok (history : List HistEntry)
    (hne : ∀ h, h ∈ history → h.parts ≠ []) :
    convAll history = .ok (history.map entrySpec) := by
  induction history with
  | nil => rfl
  | cons a t ih =>
    have ha := hne a (List.mem_cons_self a t)
    cases hp : a.parts with
    | nil => exact absurd hp ha
    | cons p ps =>
      have ht := ih (fun x hx => hne x (List.mem_cons_of_mem a hx))
      simp [convAll, convEntry, hp, ht, entrySpec]

/-- Converting a history containing an entry with an empty parts list
fails with the TypeError of the out-of-bounds access. -/
theorem convAll_err (history : List HistEntry) (h : HistEntry)
    (hmem : h ∈ history) (hp : h.parts = []) :
    convAll history = .error partsTypeError := by
  induction history with
  | nil => cases hmem
  | cons a t ih =>
    rcases List.mem_cons.mp hmem with rfl | hm
    · simp [convAll, convEntry, hp]
    · cases ha : a.parts with
      | nil => simp [convAll, convEntry, ha]
      | cons p ps => simp [convAll, convEntry, ha, ih hm]

/-- C7: for a history of `n` prior turns (each with its text) plus one
new message, the endpoint receives exactly `n + 1` ordered messages:
each history entry translated — role `model` to the assistant label,
every other role to the user label — and the new message appended last
under the user label; a successful call returns the first choice's text
content, with the empty string substituted when it is absent. -/
theorem sendChatMessage_message_shape
    (history : List HistEntry) (message : String)
    (hne : ∀ h, h ∈ history → h.parts ≠ []) :
    mkChatMessages history message =
      .ok (history.map entrySpec ++ [⟨"user", message⟩]) ∧
    (history.map entrySpec ++ ([⟨"user", message⟩] : List ChatMsg)).length
      = history.length + 1 ∧
    (∀ h : HistEntry, h.role = "model" →
      entrySpec h = ⟨"assistant", h.parts.headI.text⟩) ∧
    (∀ h : HistEntry, h.role ≠ "model" →
      entrySpec h = ⟨"user", h.parts.headI.text⟩) ∧
    (∀ (ep : List ChatMsg → Nat → Except JsErr Response) (r : Response),
      ep (history.map entrySpec ++ [⟨"user", message⟩]) 0 = .ok r →
      sendChatMessage ep history message = .ok (contentOr "" r)) ∧
    (∀ s : String, s ≠ "" → contentOr "" (singleContentResp s) = s) ∧
    contentOr "" ⟨some []⟩ = "" ∧
    contentOr "" ⟨some [⟨none⟩]⟩ = "" ∧
    contentOr "" ⟨none⟩ = "" := by
  have hmk : mkChatMessages history message =
      .ok (history.map entrySpec ++ [⟨"user", message⟩]) := by
    simp [mkChatMessages, convAll_ok history hne]
  refine ⟨hmk, by simp, fun h hr => by simp [entrySpec, hr],
    fun h hr => by simp [entrySpec, hr], ?_, ?_, rfl, rfl, rfl⟩
  · intro ep r hep
    simp [sendChatMessage, hmk, hep]
  · intro s hs
    simp [contentOr, firstContent, singleContentResp, hs]

/-- A concrete two-turn history for the chat witnesses. -/
def hist2 : List HistEntry :=
  [⟨"user", [⟨"hello"⟩]⟩, ⟨"model", [⟨"hi there"⟩]⟩]

/-- Witness for C7: two prior turns plus a new message give exactly
three ordered messages with the translated roles. -/
theorem sendChatMessage_message_shape_witness :
    mkChatMessages hist2 "next" =
      .ok [⟨"user", "hello"⟩, ⟨"assistant", "hi there"⟩, ⟨"user", "next"⟩] := by
  have h := (sendChatMessage_message_shape hist2 "next"
    (fun h hh => by
      rcases List.mem_cons.mp hh with rfl | hh
      · simp
      · rcases List.mem_cons.mp hh with rfl | hh
        · simp
        · simp at hh)).1
  simpa [hist2, entrySpec] using h

/-- C10: the unguarded `h.parts[0].text` access.  For every history in
which each entry's parts list is non-empty the conversion is
well-defined (the out-of-bounds branch is unreachable and the call
proceeds); an entry with an empty parts list makes the call fail with
the TypeError before any network request — the endpoint argument is
never consulted. -/
theorem sendChatMessage_parts_guard
    (history : List HistEntry) (message : String) :
    ((∀ h, h ∈ history → h.parts ≠ []) →
      (mkChatMessages history message).isOk = true) ∧
    (∀ h, h ∈ history → h.parts = [] →
      ∀ ep : List ChatMsg → Nat → Except JsErr Response,
        sendChatMessage ep history message = .error partsTypeError) := by
  constructor
  · intro hne
    rw [mkChatMessages, convAll_ok history hne]
    rfl
  · intro h hmem hp ep
    simp [sendChatMessage, mkChatMessages, convAll_err history h hmem hp]

/-- Witness for C10: a well-formed singleton history converts; a
history whose entry has no parts fails with the TypeError for every
endpoint, here one that would succeed. -/
theorem sendChatMessage_parts_guard_witness :
    (mkChatMessages [⟨"user", [⟨"x"⟩]⟩] "m").isOk = true ∧
    sendChatMessage (fun _ _ => .ok okRespEmpty) [⟨"model", []⟩] "m" =
      .error partsTypeError :=
  ⟨(sendChatMessage_parts_guard [⟨"user", [⟨"x"⟩]⟩] "m").1
      (fun h hh => by
        rcases List.mem_cons.mp hh with rfl | hh
        · simp
        · simp at hh),
    (sendChatMessage_parts_guard [⟨"model", []⟩] "m").2 ⟨"model", []⟩
      (List.mem_cons_self _ _) rfl (fun _ _ => .ok okRespEmpty)⟩

/-- C6 (amended): `sendChatMessage` invokes the endpoint directly and
exactly once — not through the Backoff Retrier — and returns the
reply's content without the Tolerant JSON Extractor: a rate-limited
failure of the single call is propagated at once, and a successful
reply's content comes back verbatim, fences and all. -/
theorem sendChatMessage_direct
    (ep : List ChatMsg → Nat → Except JsErr Response)
    (history : List HistEntry) (message : String) :
    (∀ msgs e, mkChatMessages history message = .ok msgs →
      ep msgs 0 = .error e → isRateLimit e = true →
      sendChatMessage ep history message = .error e) ∧
    (∀ msgs r, mkChatMessages history message = .ok msgs →
      ep msgs 0 = .ok r →
      sendChatMessage ep history message = .ok (contentOr "" r)) := by
  constructor
  · intro msgs e hm hep _
    simp [sendChatMessage, hm, hep]
  · intro msgs r hm hep
    simp [sendChatMessage, hm, hep]

/-- Witness for the amended C6: a rate-limited failure of the single
endpoint call is the result of the whole relay. -/
theorem sendChatMessage_direct_witness :
    sendChatMessage (fun _ _ => .error rl429) [] "hi" = .error rl429 :=
  (sendChatMessage_direct (fun _ _ => .error rl429) [] "hi").1
    [⟨"user", "hi"⟩] rl429 rfl rfl (by decide)

/-- An endpoint that is rate-limited on its first invocation and
succeeds from the second on: a retrying caller would succeed, a
single-shot caller propagates the rate-limit error. -/
def flakyEp : List ChatMsg → Nat → Except JsErr Response :=
  fun _ i => if i = 0 then .error rl429 else .ok okRespEmpty

/-- C6 counterexample: the claim says the chat relay goes through the
Backoff Retrier and the Tolerant JSON Extractor.  Against an endpoint
that is rate-limited exactly once, the relay returns the rate-limit
error — while the Retrier over the very same operation returns the
success the claim promises.  And a fenced reply is returned verbatim,
though the Extractor would strip the fence. -/
theorem sendChatMessage_no_retry_counterexample :
    sendChatMessage flakyEp [] "hi" = .error rl429 ∧
    isRateLimit rl429 = true ∧
    (retryWithBackoff (flakyEp [⟨"user", "hi"⟩]) 5 2000).result =
      .ok okRespEmpty ∧
    sendChatMessage (fun _ _ => .ok (singleContentResp "```json\nX\n```"))
      [] "hi" = .ok "```json\nX\n```" ∧
    cleanJson "```json\nX\n```" = "X" := by
  refine ⟨rfl, by decide, rfl, rfl, by decide⟩
